import Mathlib

/-!
Verification of the mini_freelance application (src/app.py).

The application is a small Flask marketplace: users register, log in,
post projects, place bids, and project owners accept one bid per project.
We embed the data model (User, Project, Bid), the session, and the six
mutating request handlers as a state machine over explicit lists, and
prove the claimed properties of the handlers and the reachable states.
-/

namespace MiniFreelance

/-- Password hashing interface, standing for werkzeug's
`generate_password_hash` / `check_password_hash`.  `check h p` checks the
plaintext `p` against the stored hash `h`. -/
structure HashAlg where
  gen : String → String
  check : String → String → Bool

/-- The `User` model of src/app.py (id, unique username, display name,
unique email, password hash; `bio` and `created_at` play no role in the
claims and are omitted). -/
structure User where
  id : Nat
  username : String
  display_name : String
  email : String
  password_hash : String
  deriving DecidableEq

/-- `User.check_password` from src/app.py: checks the candidate password
against the stored hash. -/
def User.check_password (H : HashAlg) (u : User) (password : String) : Bool :=
  H.check u.password_hash password

/-- The `Project` model of src/app.py (`created_at` omitted; `image` is the
optional stored filename). -/
structure Project where
  id : Nat
  title : String
  description : String
  budget : String
  owner_id : Nat
  image : Option String
  deriving DecidableEq

/-- The `Bid` model of src/app.py (`created_at` omitted). -/
structure Bid where
  id : Nat
  price : String
  message : String
  project_id : Nat
  bidder_id : Nat
  accepted : Bool
  deriving DecidableEq

/-- Server state: the three tables in insertion order, the autoincrement
counters, and the session (the logged-in user id, if any). -/
structure St where
  users : List User
  projects : List Project
  bids : List Bid
  nextUserId : Nat
  nextProjectId : Nat
  nextBidId : Nat
  session : Option Nat
  deriving DecidableEq

/-- The empty database with no session (fresh `db.create_all()`;
SQLite autoincrement ids start at 1). -/
def initSt : St :=
  { users := [], projects := [], bids := [],
    nextUserId := 1, nextProjectId := 1, nextBidId := 1, session := none }

/-- `current_user` resolution: flask_login resolves the session's user id
through `load_user`; an unresolvable id is anonymous. -/
def currentUser (s : St) : Option User :=
  s.session.bind (fun uid => s.users.find? (fun u => u.id == uid))

/-- Outcome of one request handler call. -/
inductive Outcome where
  | ok
  | redirectAuthed
  | authRequired
  | invalidInput
  | duplicateIdentity
  | invalidCredentials
  | notFound
  | forbidden
  deriving DecidableEq

/-- Python `str.strip()` with no argument: drop leading and trailing
whitespace. -/
def pyStrip (s : String) : String :=
  String.mk (((s.toList.dropWhile Char.isWhitespace).reverse.dropWhile
    Char.isWhitespace).reverse)

/-- Python `str.lower()` on the ASCII strings handled here. -/
def pyLower (s : String) : String :=
  String.mk (s.toList.map Char.toLower)

/-- `ALLOWED_EXTENSIONS` set from src/app.py line 90. -/
def allowedExt : List String := ["png", "jpg", "jpeg", "gif"]

/-- The characters after the last `.`, i.e. Python
`filename.rsplit(".", 1)[1]` when a dot is present. -/
def extAfterLastDot (cs : List Char) : List Char :=
  (cs.reverse.takeWhile (fun c => c != '.')).reverse

/-- `allowed_file` from src/app.py lines 91-92:
`"." in filename and filename.rsplit(".", 1)[1].lower() in ALLOWED_EXT`. -/
def allowed_file (filename : String) : Bool :=
  filename.toList.contains '.' &&
    allowedExt.contains (pyLower (String.mk (extAfterLastDot filename.toList)))

/-- Characters kept by werkzeug's filename sanitizer: `[A-Za-z0-9_.-]`. -/
def keepChar (c : Char) : Bool :=
  c.isAlphanum || c == '_' || c == '.' || c == '-'

/-- Leading/trailing `.` and `_` characters, stripped by the sanitizer. -/
def stripChar (c : Char) : Bool :=
  c == '.' || c == '_'

/-- `strip("._")` on a list of characters. -/
def stripEnds (cs : List Char) : List Char :=
  ((cs.dropWhile stripChar).reverse.dropWhile stripChar).reverse

/-- Python `str.split()` with no argument, before discarding the empty
pieces: cut the character list at every whitespace character. -/
def splitWs : List Char → List (List Char)
  | [] => [[]]
  | c :: rest =>
    match splitWs rest with
    | [] => [[]]
    | h :: t => if c.isWhitespace then [] :: h :: t else (c :: h) :: t

/-- werkzeug's `secure_filename` on POSIX for ASCII input (the NFKD +
ascii-encode step is the identity there): replace `/` by a space, join the
whitespace-separated pieces with `_`, drop every character outside
`[A-Za-z0-9_.-]`, and strip leading/trailing `.` and `_`. -/
def secure_filename (filename : String) : String :=
  let cs := filename.toList.map (fun c => if c == '/' then ' ' else c)
  let parts := (splitWs cs).filter (fun p => !p.isEmpty)
  let joined := (parts.intersperse ['_']).flatten
  String.mk (stripEnds (joined.filter keepChar))

/-- `register` handler, src/app.py lines 115-141.  An authenticated caller
is redirected away; the username is stripped, the email stripped and
lowercased; empty required fields fail before the duplicate check; a
username or email collision fails without inserting; otherwise the user is
inserted with a hashed password and logged in. -/
def register (H : HashAlg) (s : St)
    (username email password : String) (display_name : Option String) :
    Outcome × St :=
  if (currentUser s).isSome then (.redirectAuthed, s)
  else
    let u := pyStrip username
    let e := pyLower (pyStrip email)
    let dn := display_name.getD u
    if u = "" || e = "" || password = "" then (.invalidInput, s)
    else if s.users.any (fun x => x.username == u || x.email == e) then
      (.duplicateIdentity, s)
    else
      let newUser : User :=
        { id := s.nextUserId, username := u, display_name := dn,
          email := e, password_hash := H.gen password }
      (.ok, { s with users := s.users ++ [newUser],
                     nextUserId := s.nextUserId + 1,
                     session := some newUser.id })

/-- `login` handler, src/app.py lines 143-158.  An authenticated caller is
redirected away; the identifier is stripped and matched against username
or email (`.first()`: the first match in table order); the password is
checked against that user's hash. -/
def login (H : HashAlg) (s : St) (identifier password : String) :
    Outcome × St :=
  if (currentUser s).isSome then (.redirectAuthed, s)
  else
    let u := pyStrip identifier
    match s.users.find? (fun x => x.username == u || x.email == u) with
    | some user =>
        if user.check_password H password then
          (.ok, { s with session := some user.id })
        else (.invalidCredentials, s)
    | none => (.invalidCredentials, s)

/-- `logout` handler, src/app.py lines 160-165 (`login_required`). -/
def logout (s : St) : Outcome × St :=
  match currentUser s with
  | none => (.authRequired, s)
  | some _ => (.ok, { s with session := none })

/-- The file-storage guard of `new_project`, src/app.py lines 183-186:
a file is stored only when one was attached with a non-empty name that
`allowed_file` accepts, and the recorded name is then
`secure_filename(f"{ts}_{file.filename}")`, where `ts` is
`int(datetime.utcnow().timestamp())` at the time of the request. -/
def imageFor (file : Option String) (ts : Nat) : Option String :=
  match file with
  | some fn =>
      if fn != "" && allowed_file fn then
        some (secure_filename (toString ts ++ "_" ++ fn))
      else none
  | none => none

/-- `new_project` handler, src/app.py lines 170-198.  `file` is the
uploaded file's filename, if a file part was attached.  Title and
description are required; the optional upload is handled by `imageFor`
and never fails the request. -/
def new_project (s : St) (title description budget : String)
    (file : Option String) (ts : Nat) : Outcome × St :=
  match currentUser s with
  | none => (.authRequired, s)
  | some cu =>
    let t := pyStrip title
    let d := pyStrip description
    let b := pyStrip budget
    if t = "" || d = "" then (.invalidInput, s)
    else
      let filename : Option String := imageFor file ts
      let p : Project :=
        { id := s.nextProjectId, title := t, description := d, budget := b,
          owner_id := cu.id, image := filename }
      (.ok, { s with projects := s.projects ++ [p],
                     nextProjectId := s.nextProjectId + 1 })

/-- `place_bid` handler, src/app.py lines 200-215: project fetched by id
(404 if absent), price required non-empty after stripping, then a bid with
`accepted` defaulted to `False` is inserted. -/
def place_bid (s : St) (project_id : Nat) (price message : String) :
    Outcome × St :=
  match currentUser s with
  | none => (.authRequired, s)
  | some cu =>
    match s.projects.find? (fun p => p.id == project_id) with
    | none => (.notFound, s)
    | some proj =>
      let pr := pyStrip price
      let m := pyStrip message
      if pr = "" then (.invalidInput, s)
      else
        let b : Bid :=
          { id := s.nextBidId, price := pr, message := m,
            project_id := proj.id, bidder_id := cu.id, accepted := false }
        (.ok, { s with bids := s.bids ++ [b], nextBidId := s.nextBidId + 1 })

/-- The body of the `for b in project.bids: b.accepted = False` loop of
`accept_bid`: clear the accepted flag on every bid of project `pid`. -/
def clearBid (pid : Nat) (b : Bid) : Bid :=
  if b.project_id == pid then { b with accepted := false } else b

/-- The `bid.accepted = True` step of `accept_bid`, addressing the bid by
its id (SQLAlchemy identity). -/
def setBid (bid_id : Nat) (b : Bid) : Bid :=
  if b.id == bid_id then { b with accepted := true } else b

/-- `accept_bid` handler, src/app.py lines 217-230: project fetched by id
(404 if absent), 403 unless the caller owns it, the bid fetched scoped to
the project (404 if absent), then all of the project's bids are cleared
and the target bid is set accepted, in one commit. -/
def accept_bid (s : St) (project_id bid_id : Nat) : Outcome × St :=
  match currentUser s with
  | none => (.authRequired, s)
  | some cu =>
    match s.projects.find? (fun p => p.id == project_id) with
    | none => (.notFound, s)
    | some proj =>
      if proj.owner_id != cu.id then (.forbidden, s)
      else
        match s.bids.find? (fun b => b.id == bid_id && b.project_id == proj.id) with
        | none => (.notFound, s)
        | some _ =>
          let bids1 := s.bids.map (clearBid proj.id)
          let bids2 := bids1.map (setBid bid_id)
          (.ok, { s with bids := bids2 })

/-- One user-facing operation with its request inputs. -/
inductive Op where
  | register (username email password : String) (display_name : Option String)
  | login (identifier password : String)
  | logout
  | newProject (title description budget : String) (file : Option String) (ts : Nat)
  | placeBid (project_id : Nat) (price message : String)
  | acceptBid (project_id bid_id : Nat)

/-- Dispatch one operation to its handler. -/
def applyOp (H : HashAlg) (s : St) : Op → Outcome × St
  | .register u e p d => register H s u e p d
  | .login i p => login H s i p
  | .logout => logout s
  | .newProject t d b f ts => new_project s t d b f ts
  | .placeBid pid pr m => place_bid s pid pr m
  | .acceptBid pid bid => accept_bid s pid bid

/-- States reachable from the empty database by any sequence of
operations. -/
inductive Reachable (H : HashAlg) : St → Prop where
  | init : Reachable H initSt
  | step (s : St) (op : Op) : Reachable H s → Reachable H (applyOp H s op).2

/-- Run a list of operations from a state, keeping the final state. -/
def runOps (H : HashAlg) (s : St) (ops : List Op) : St :=
  ops.foldl (fun s op => (applyOp H s op).2) s

/-- Number of accepted bids recorded against project `pid`. -/
def acceptedCount (bids : List Bid) (pid : Nat) : Nat :=
  (bids.filter (fun b => b.project_id == pid && b.accepted)).length

/-- A concrete hash algorithm used for closed test scenarios. -/
def testHash : HashAlg :=
  { gen := fun p => "h:" ++ p, check := fun h p => h == "h:" ++ p }

/-- The per-bid effect of a successful `accept_bid` on project `pid` with
target bid id `k`: the composition of the clear loop and the set step. -/
def acceptUpd (pid k : Nat) (b : Bid) : Bid :=
  setBid k (clearBid pid b)

theorem clearBid_id (pid : Nat) (b : Bid) : (clearBid pid b).id = b.id := by
  unfold clearBid; split <;> rfl

theorem setBid_id (k : Nat) (b : Bid) : (setBid k b).id = b.id := by
  unfold setBid; split <;> rfl

theorem clearBid_project (pid : Nat) (b : Bid) :
    (clearBid pid b).project_id = b.project_id := by
  unfold clearBid; split <;> rfl

theorem setBid_project (k : Nat) (b : Bid) :
    (setBid k b).project_id = b.project_id := by
  unfold setBid; split <;> rfl

theorem acceptUpd_id (pid k : Nat) (b : Bid) : (acceptUpd pid k b).id = b.id := by
  unfold acceptUpd; rw [setBid_id, clearBid_id]

theorem acceptUpd_project (pid k : Nat) (b : Bid) :
    (acceptUpd pid k b).project_id = b.project_id := by
  unfold acceptUpd; rw [setBid_project, clearBid_project]

theorem acceptUpd_accepted (pid k : Nat) (b : Bid) :
    (acceptUpd pid k b).accepted =
      if b.id == k then true
      else if b.project_id == pid then false
      else b.accepted := by
  unfold acceptUpd setBid clearBid
  by_cases h1 : b.id == k <;> by_cases h2 : b.project_id == pid <;>
    simp [h1, h2]

theorem accept_bids_map (pid k : Nat) (l : List Bid) :
    (l.map (clearBid pid)).map (setBid k) = l.map (acceptUpd pid k) := by
  rw [List.map_map]; rfl

theorem nodup_const_length_le_one {m : List Nat} {c : Nat}
    (h : m.Nodup) (he : ∀ x ∈ m, x = c) : m.length ≤ 1 := by
  cases m with
  | nil => simp
  | cons a t =>
    cases t with
    | nil => simp
    | cons b t' =>
      exfalso
      have ha := he a (by simp)
      have hb := he b (by simp)
      subst ha
      exact (List.nodup_cons.mp h).1 (by simp [hb])

theorem filter_length_le_one {l : List Bid} {p : Bid → Bool} {c : Nat}
    (hnd : (l.map Bid.id).Nodup) (hc : ∀ b ∈ l.filter p, b.id = c) :
    (l.filter p).length ≤ 1 := by
  have hsub : ((l.filter p).map Bid.id).Sublist (l.map Bid.id) :=
    (List.filter_sublist l).map Bid.id
  have hnd2 : ((l.filter p).map Bid.id).Nodup := List.Nodup.sublist hsub hnd
  have hlen : ((l.filter p).map Bid.id).length = (l.filter p).length :=
    List.length_map _ _
  rw [← hlen]
  apply nodup_const_length_le_one hnd2
  intro x hx
  obtain ⟨b, hb, rfl⟩ := List.mem_map.mp hx
  exact hc b hb

/-- Database invariant carried through every operation: bid ids are
pairwise distinct and below the autoincrement counter, and every project
has at most one accepted bid. -/
def BidInv (s : St) : Prop :=
  (s.bids.map Bid.id).Nodup ∧ (∀ b ∈ s.bids, b.id < s.nextBidId) ∧
    (∀ pid, acceptedCount s.bids pid ≤ 1)

theorem BidInv_congr {s s' : St} (hb : s'.bids = s.bids)
    (hn : s'.nextBidId = s.nextBidId) (h : BidInv s) : BidInv s' :=
  ⟨by rw [hb]; exact h.1,
   by rw [hb, hn]; exact h.2.1,
   by intro pid; rw [hb]; exact h.2.2 pid⟩

theorem BidInv_insert (s : St) (h : BidInv s) (pr m : String) (pid uid : Nat) :
    BidInv { s with
             bids := s.bids ++ [⟨s.nextBidId, pr, m, pid, uid, false⟩],
             nextBidId := s.nextBidId + 1 } := by
  obtain ⟨h1, h2, h3⟩ := h
  refine ⟨?_, ?_, ?_⟩
  · show (List.map Bid.id (s.bids ++ [⟨s.nextBidId, pr, m, pid, uid, false⟩])).Nodup
    rw [List.map_append]
    apply List.Nodup.append h1 (by simp)
    simp only [List.map_cons, List.map_nil, List.disjoint_singleton]
    intro hmem
    obtain ⟨b, hb, hid⟩ := List.mem_map.mp hmem
    exact Nat.lt_irrefl _ (hid ▸ h2 b hb)
  · intro b hb
    rcases List.mem_append.mp hb with h' | h'
    · exact Nat.lt_succ_of_lt (h2 b h')
    · simp only [List.mem_singleton] at h'
      subst h'
      exact Nat.lt_succ_self _
  · intro q
    show acceptedCount (s.bids ++ [⟨s.nextBidId, pr, m, pid, uid, false⟩]) q ≤ 1
    unfold acceptedCount
    rw [List.filter_append]
    have : List.filter (fun b => b.project_id == q && b.accepted)
        [(⟨s.nextBidId, pr, m, pid, uid, false⟩ : Bid)] = [] := by
      simp [List.filter]
    rw [this, List.append_nil]
    exact h3 q

theorem BidInv_accept (s : St) (pid k : Nat) (b0 : Bid)
    (hfind : s.bids.find? (fun b => b.id == k && b.project_id == pid) = some b0)
    (h : BidInv s) :
    BidInv { s with bids := (s.bids.map (clearBid pid)).map (setBid k) } := by
  obtain ⟨h1, h2, h3⟩ := h
  have hb0mem : b0 ∈ s.bids := List.mem_of_find?_eq_some hfind
  have hb0p : b0.id = k ∧ b0.project_id = pid := by
    have := List.find?_some hfind
    simpa using this
  have hmapeq : (s.bids.map (clearBid pid)).map (setBid k)
      = s.bids.map (acceptUpd pid k) := accept_bids_map pid k s.bids
  have hids : (s.bids.map (acceptUpd pid k)).map Bid.id = s.bids.map Bid.id := by
    rw [List.map_map]
    apply List.map_congr_left
    intro b _
    simp [Function.comp, acceptUpd_id]
  refine ⟨?_, ?_, ?_⟩
  · show ((s.bids.map (clearBid pid)).map (setBid k) |>.map Bid.id).Nodup
    rw [hmapeq, hids]
    exact h1
  · intro b hb
    simp only [hmapeq] at hb
    obtain ⟨b', hb', rfl⟩ := List.mem_map.mp hb
    show (acceptUpd pid k b').id < s.nextBidId
    rw [acceptUpd_id]
    exact h2 b' hb'
  · intro q
    show acceptedCount ((s.bids.map (clearBid pid)).map (setBid k)) q ≤ 1
    rw [hmapeq]
    unfold acceptedCount
    by_cases hq : q = pid
    · subst hq
      apply filter_length_le_one (c := k)
      · rw [hids]; exact h1
      · intro b hb
        have hmem := List.mem_filter.mp hb
        obtain ⟨b', hb', rfl⟩ := List.mem_map.mp hmem.1
        have hcond := hmem.2
        simp only [Bool.and_eq_true, beq_iff_eq] at hcond
        obtain ⟨hproj, hacc⟩ := hcond
        rw [acceptUpd_id]
        by_contra hne
        have hidk : (b'.id == k) = false := by simpa using hne
        rw [acceptUpd_project] at hproj
        rw [acceptUpd_accepted, hidk] at hacc
        simp [hproj] at hacc
    · rw [List.filter_map, List.length_map]
      have hcongr : List.filter
          ((fun b => b.project_id == q && b.accepted) ∘ acceptUpd pid k) s.bids
          = List.filter (fun b => b.project_id == q && b.accepted) s.bids := by
        apply List.filter_congr
        intro b hb
        simp only [Function.comp_apply]
        by_cases hpq : b.project_id = q
        · have hbk : (b.id == k) = false := by
            rw [beq_eq_false_iff_ne]
            intro hbid
            have hbb0 : b = b0 :=
              List.inj_on_of_nodup_map h1 hb hb0mem (by rw [hbid, hb0p.1])
            apply hq
            rw [← hpq, hbb0, hb0p.2]
          have hbpid : (b.project_id == pid) = false := by
            rw [beq_eq_false_iff_ne, hpq]
            exact hq
          rw [acceptUpd_accepted, hbk, hbpid, acceptUpd_project]
          simp
        · have hfalse : (b.project_id == q) = false := by
            rw [beq_eq_false_iff_ne]
            exact hpq
          rw [acceptUpd_project, hfalse]
          simp
      rw [hcongr]
      exact h3 q

theorem BidInv_applyOp (H : HashAlg) (s : St) (op : Op) (h : BidInv s) :
    BidInv (applyOp H s op).2 := by
  cases op with
  | register u e p d =>
    show BidInv (register H s u e p d).2
    unfold register
    dsimp only
    split
    · exact h
    · split
      · exact h
      · split
        · exact h
        · exact BidInv_congr rfl rfl h
  | login i p =>
    show BidInv (login H s i p).2
    unfold login
    dsimp only
    split
    · exact h
    · split
      · split
        · exact BidInv_congr rfl rfl h
        · exact h
      · exact h
  | logout =>
    show BidInv (logout s).2
    unfold logout
    split
    · exact h
    · exact BidInv_congr rfl rfl h
  | newProject t d b f ts =>
    show BidInv (new_project s t d b f ts).2
    unfold new_project
    dsimp only
    split
    · exact h
    · split
      · exact h
      · exact BidInv_congr rfl rfl h
  | placeBid pid pr m =>
    show BidInv (place_bid s pid pr m).2
    unfold place_bid
    dsimp only
    split
    · exact h
    · split
      · exact h
      · split
        · exact h
        · exact BidInv_insert s h (pyStrip pr) (pyStrip m) _ _
  | acceptBid pid k =>
    show BidInv (accept_bid s pid k).2
    unfold accept_bid
    dsimp only
    split
    · exact h
    · split
      · exact h
      · split
        · exact h
        · split
          · exact h
          · rename_i b0 heq
            exact BidInv_accept s _ k b0 heq h

theorem BidInv_initSt : BidInv initSt := by
  refine ⟨by simp [initSt], by simp [initSt], ?_⟩
  intro pid
  simp [initSt, acceptedCount]

theorem BidInv_reachable (H : HashAlg) (s : St) (h : Reachable H s) :
    BidInv s := by
  induction h with
  | init => exact BidInv_initSt
  | step s op _ ih => exact BidInv_applyOp H s op ih

theorem reachable_runOps (H : HashAlg) (s : St) (h : Reachable H s)
    (ops : List Op) : Reachable H (runOps H s ops) := by
  induction ops generalizing s with
  | nil => exact h
  | cons op rest ih => exact ih (applyOp H s op).2 (Reachable.step s op h)

/-! Concrete scenario (the spec's §8 scenario): alice registers and posts
"Logo design", bob registers and bids "$80", alice logs back in and
accepts bob's bid, then carol registers, bids "$70", and alice accepts
carol's bid. -/

/-- Operations up to bob's bid (session: bob). -/
def midOps : List Op :=
  [.register "alice" "a@x.com" "pw1" none,
   .newProject "Logo design" "Need a logo" "$100" none 0,
   .logout,
   .register "bob" "b@x.com" "pw2" none,
   .placeBid 1 "$80" "I can do it"]

/-- State after bob's bid, with bob logged in. -/
def midSt : St := runOps testHash initSt midOps

/-- Operations up to alice being logged back in, before any accept. -/
def preAcceptOps : List Op := midOps ++ [.logout, .login "alice" "pw1"]

/-- State with alice logged in and bob's pending bid. -/
def preAccept : St := runOps testHash initSt preAcceptOps

/-- Full scenario operations, ending with alice accepting bob's bid. -/
def demoOps : List Op := preAcceptOps ++ [.acceptBid 1 1]

/-- State after alice accepted bob's bid. -/
def demoSt : St := runOps testHash initSt demoOps

/-- Scenario continued: carol registers and bids, alice logs back in. -/
def preFlipOps : List Op :=
  demoOps ++ [.logout, .register "carol" "c@x.com" "pw3" none,
              .placeBid 1 "$70" "", .logout, .login "alice" "pw1"]

/-- State with bob's bid accepted, carol's bid pending, alice logged in. -/
def preFlip : St := runOps testHash initSt preFlipOps

/-- Alice's user row in the scenario. -/
def aliceU : User :=
  { id := 1, username := "alice", display_name := "alice",
    email := "a@x.com", password_hash := "h:pw1" }

/-- Bob's user row in the scenario. -/
def bobU : User :=
  { id := 2, username := "bob", display_name := "bob",
    email := "b@x.com", password_hash := "h:pw2" }

/-- The "Logo design" project row in the scenario. -/
def logoProj : Project :=
  { id := 1, title := "Logo design", description := "Need a logo",
    budget := "$100", owner_id := 1, image := none }

/-- Carol's bid row in the scenario. -/
def carolBid : Bid :=
  { id := 2, price := "$70", message := "", project_id := 1,
    bidder_id := 3, accepted := false }

/-- C1: for every project `pid` and every state reachable from the empty
database by any sequence of operations, at most one bid referencing `pid`
has `accepted = true`. -/
theorem C1_at_most_one_accepted_bid (H : HashAlg) (s : St)
    (h : Reachable H s) (pid : Nat) : acceptedCount s.bids pid ≤ 1 :=
  (BidInv_reachable H s h).2.2 pid

theorem C1_at_most_one_accepted_bid_witness :
    acceptedCount demoSt.bids 1 ≤ 1 :=
  C1_at_most_one_accepted_bid testHash demoSt
    (reachable_runOps testHash initSt Reachable.init demoOps) 1

/-- C2: when the acting user owns the project and the target bid belongs
to it, `accept_bid` succeeds, rewrites the bid table with `acceptUpd`
(clear the project's bids, set the target), after which the target bid is
accepted and every other bid of the project is not accepted — in
particular a previously accepted bid flips back. -/
theorem C2_accept_sets_target_clears_others (s : St) (pid k : Nat)
    (u : User) (proj : Project)
    (hcu : currentUser s = some u)
    (hproj : s.projects.find? (fun p => p.id == pid) = some proj)
    (hown : proj.owner_id = u.id)
    (hbid : ∃ b0 ∈ s.bids, b0.id = k ∧ b0.project_id = proj.id) :
    (accept_bid s pid k).1 = Outcome.ok ∧
    (accept_bid s pid k).2.bids = s.bids.map (acceptUpd proj.id k) ∧
    (∀ b' ∈ (accept_bid s pid k).2.bids, b'.id = k → b'.accepted = true) ∧
    (∀ b' ∈ (accept_bid s pid k).2.bids,
       b'.project_id = proj.id → b'.id ≠ k → b'.accepted = false) ∧
    (∃ b' ∈ (accept_bid s pid k).2.bids, b'.id = k ∧ b'.accepted = true) := by
  obtain ⟨b0, hb0mem, hb0id, hb0proj⟩ := hbid
  have hsome : (s.bids.find? (fun b => b.id == k && b.project_id == proj.id)).isSome := by
    rw [List.find?_isSome]
    exact ⟨b0, hb0mem, by simp [hb0id, hb0proj]⟩
  obtain ⟨b1, hfind⟩ := Option.isSome_iff_exists.mp hsome
  have hred : accept_bid s pid k =
      (Outcome.ok, { s with bids := (s.bids.map (clearBid proj.id)).map (setBid k) }) := by
    unfold accept_bid
    rw [hcu]
    dsimp only
    rw [hproj]
    dsimp only
    rw [hown, bne_self_eq_false]
    simp only [Bool.false_eq_true, if_false]
    rw [hfind]
  rw [hred]
  dsimp only
  rw [accept_bids_map]
  refine ⟨rfl, rfl, ?_, ?_, ?_⟩
  · intro b' hb' hid
    obtain ⟨b, hb, rfl⟩ := List.mem_map.mp hb'
    rw [acceptUpd_id] at hid
    rw [acceptUpd_accepted]
    simp [hid]
  · intro b' hb' hpj hid
    obtain ⟨b, hb, rfl⟩ := List.mem_map.mp hb'
    rw [acceptUpd_id] at hid
    rw [acceptUpd_project] at hpj
    rw [acceptUpd_accepted]
    have h1 : (b.id == k) = false := by rwa [beq_eq_false_iff_ne]
    have h2 : (b.project_id == proj.id) = true := by rwa [beq_iff_eq]
    rw [h1, h2]
    simp
  · refine ⟨acceptUpd proj.id k b0, List.mem_map_of_mem _ hb0mem, ?_, ?_⟩
    · rw [acceptUpd_id]; exact hb0id
    · rw [acceptUpd_accepted]
      simp [hb0id]

theorem C2_accept_sets_target_clears_others_witness :
    (accept_bid preFlip 1 2).1 = Outcome.ok ∧
    (accept_bid preFlip 1 2).2.bids = preFlip.bids.map (acceptUpd 1 2) ∧
    (∀ b' ∈ (accept_bid preFlip 1 2).2.bids, b'.id = 2 → b'.accepted = true) ∧
    (∀ b' ∈ (accept_bid preFlip 1 2).2.bids,
       b'.project_id = 1 → b'.id ≠ 2 → b'.accepted = false) ∧
    (∃ b' ∈ (accept_bid preFlip 1 2).2.bids, b'.id = 2 ∧ b'.accepted = true) :=
  C2_accept_sets_target_clears_others preFlip 1 2 aliceU logoProj
    (by decide) (by decide) rfl ⟨carolBid, by decide, rfl, rfl⟩

/-- C3: `accept_bid` by an authenticated user who does not own the target
project fails with Forbidden and leaves the whole state (in particular
every bid row) unchanged. -/
theorem C3_accept_by_non_owner_forbidden (s : St) (pid k : Nat)
    (u : User) (proj : Project)
    (hcu : currentUser s = some u)
    (hproj : s.projects.find? (fun p => p.id == pid) = some proj)
    (hneq : proj.owner_id ≠ u.id) :
    accept_bid s pid k = (Outcome.forbidden, s) := by
  unfold accept_bid
  rw [hcu]
  dsimp only
  rw [hproj]
  dsimp only
  have hbne : (proj.owner_id != u.id) = true := by rwa [bne_iff_ne]
  rw [hbne]
  rfl

theorem C3_accept_by_non_owner_forbidden_witness :
    accept_bid midSt 1 1 = (Outcome.forbidden, midSt) :=
  C3_accept_by_non_owner_forbidden midSt 1 1 bobU logoProj
    (by decide) (by decide) (by decide)

/-- C4: `accept_bid` by the project owner fails with NotFound and leaves
the state unchanged when no bid row has both the requested bid id and the
requested project. -/
theorem C4_accept_missing_bid_notFound (s : St) (pid k : Nat)
    (u : User) (proj : Project)
    (hcu : currentUser s = some u)
    (hproj : s.projects.find? (fun p => p.id == pid) = some proj)
    (hown : proj.owner_id = u.id)
    (hnone : ∀ b ∈ s.bids, ¬(b.id = k ∧ b.project_id = proj.id)) :
    accept_bid s pid k = (Outcome.notFound, s) := by
  have hfind : s.bids.find? (fun b => b.id == k && b.project_id == proj.id) = none := by
    rw [List.find?_eq_none]
    intro b hb
    simp only [Bool.and_eq_true, beq_iff_eq]
    exact hnone b hb
  unfold accept_bid
  rw [hcu]
  dsimp only
  rw [hproj]
  dsimp only
  rw [hown, bne_self_eq_false]
  simp only [Bool.false_eq_true, if_false]
  rw [hfind]

theorem C4_accept_missing_bid_notFound_witness :
    accept_bid preAccept 1 99 = (Outcome.notFound, preAccept) :=
  C4_accept_missing_bid_notFound preAccept 1 99 aliceU logoProj
    (by decide) (by decide) rfl (by decide)

/-- State with only alice registered, nobody logged in. -/
def regDupSt : St :=
  runOps testHash initSt [.register "alice" "a@x.com" "pw1" none, .logout]

/-- C5 counterexample: with alice already registered, a register call
reusing the username "alice" but carrying an empty password fails with
InvalidInput, not with DuplicateIdentity as the claim states. -/
theorem C5_counterexample :
    (∃ u ∈ regDupSt.users, u.username = pyStrip "alice") ∧
    (register testHash regDupSt "alice" "b@x.com" "" none).1
        = Outcome.invalidInput ∧
    (register testHash regDupSt "alice" "b@x.com" "" none).1
        ≠ Outcome.duplicateIdentity := by
  refine ⟨⟨aliceU, by decide, by decide⟩, by decide, by decide⟩

/-- C5 (amended): a register call whose stripped username or
stripped-and-lowercased email collides with an existing user never adds a
User row and never changes the session; it reports DuplicateIdentity
exactly when the caller is anonymous and all three required fields are
non-empty (an empty field is reported as InvalidInput first, and an
authenticated caller is redirected away). -/
theorem C5_amended_duplicate_register (H : HashAlg) (s : St)
    (username email password : String) (dn : Option String)
    (hdup : ∃ u ∈ s.users,
        u.username = pyStrip username ∨ u.email = pyLower (pyStrip email)) :
    (register H s username email password dn).2.users = s.users ∧
    (register H s username email password dn).2.session = s.session ∧
    ((register H s username email password dn).1 = Outcome.duplicateIdentity ↔
      currentUser s = none ∧ pyStrip username ≠ "" ∧
        pyLower (pyStrip email) ≠ "" ∧ password ≠ "") ∧
    (currentUser s ≠ none →
      (register H s username email password dn).1 = Outcome.redirectAuthed) ∧
    (currentUser s = none →
      (pyStrip username = "" ∨ pyLower (pyStrip email) = "" ∨ password = "") →
      (register H s username email password dn).1 = Outcome.invalidInput) := by
  have hany : s.users.any
      (fun x => x.username == pyStrip username
        || x.email == pyLower (pyStrip email)) = true := by
    rw [List.any_eq_true]
    obtain ⟨u, hu, hor⟩ := hdup
    refine ⟨u, hu, ?_⟩
    cases hor with
    | inl h => simp [h]
    | inr h => simp [h]
  unfold register
  dsimp only
  split
  · rename_i hauth
    refine ⟨rfl, rfl, ?_, ?_, ?_⟩
    · constructor
      · intro habs
        exact Outcome.noConfusion habs
      · rintro ⟨hnone, -, -, -⟩
        rw [hnone] at hauth
        simp at hauth
    · intro _
      rfl
    · intro hnone
      rw [hnone] at hauth
      simp at hauth
  · rename_i hauth
    have hnone : currentUser s = none := by
      cases hcu : currentUser s with
      | none => rfl
      | some v =>
        rw [hcu] at hauth
        simp at hauth
    by_cases hemp : (decide (pyStrip username = "")
        || decide (pyLower (pyStrip email) = "") || decide (password = "")) = true
    · rw [if_pos hemp]
      simp only [Bool.or_eq_true, decide_eq_true_eq] at hemp
      refine ⟨rfl, rfl, ?_, ?_, ?_⟩
      · constructor
        · intro habs
          exact Outcome.noConfusion habs
        · rintro ⟨-, h1, h2, h3⟩
          rcases hemp with (h | h) | h
          · exact absurd h h1
          · exact absurd h h2
          · exact absurd h h3
      · intro hne
        exact absurd hnone hne
      · intro _ _
        rfl
    · rw [if_neg hemp]
      simp only [Bool.or_eq_true, decide_eq_true_eq, not_or] at hemp
      obtain ⟨⟨h1, h2⟩, h3⟩ := hemp
      refine ⟨rfl, rfl, ?_, ?_, ?_⟩
      · constructor
        · intro _
          exact ⟨hnone, h1, h2, h3⟩
        · intro _
          rfl
      · intro hne
        exact absurd hnone hne
      · intro _ hor
        rcases hor with h | h | h
        · exact absurd h h1
        · exact absurd h h2
        · exact absurd h h3

theorem C5_amended_duplicate_register_witness :
    (register testHash regDupSt "alice" "b@x.com" "pw9" none).2.users
        = regDupSt.users ∧
    (register testHash regDupSt "alice" "b@x.com" "pw9" none).2.session
        = regDupSt.session ∧
    ((register testHash regDupSt "alice" "b@x.com" "pw9" none).1
          = Outcome.duplicateIdentity ↔
      currentUser regDupSt = none ∧ pyStrip "alice" ≠ "" ∧
        pyLower (pyStrip "b@x.com") ≠ "" ∧ ("pw9" : String) ≠ "") ∧
    (currentUser regDupSt ≠ none →
      (register testHash regDupSt "alice" "b@x.com" "pw9" none).1
          = Outcome.redirectAuthed) ∧
    (currentUser regDupSt = none →
      (pyStrip "alice" = "" ∨ pyLower (pyStrip "b@x.com") = "" ∨
        ("pw9" : String) = "") →
      (register testHash regDupSt "alice" "b@x.com" "pw9" none).1
          = Outcome.invalidInput) :=
  C5_amended_duplicate_register testHash regDupSt "alice" "b@x.com" "pw9" none
    ⟨aliceU, by decide, Or.inl (by decide)⟩

/-- State where one user's username equals another user's email. -/
def crossSt : St :=
  runOps testHash initSt
    [.register "x@y.com" "a@b.com" "pa" none, .logout,
     .register "bob" "x@y.com" "pb" none, .logout]

/-- C6 counterexample: in `crossSt` the identifier "x@y.com" matches
bob's email, and the password "pb" verifies against bob's stored hash,
yet login fails with InvalidCredentials: `.first()` returns the earlier
user whose username is "x@y.com", and only that user's hash is checked. -/
theorem C6_counterexample :
    (∃ u ∈ crossSt.users,
        (u.username = pyStrip "x@y.com" ∨ u.email = pyStrip "x@y.com") ∧
        testHash.check u.password_hash "pb" = true) ∧
    (login testHash crossSt "x@y.com" "pb").1 = Outcome.invalidCredentials := by
  refine ⟨⟨⟨2, "bob", "bob", "x@y.com", "h:pb"⟩, by decide,
    Or.inr (by decide), by decide⟩, by decide⟩

/-- C6 (amended): for an anonymous caller, the stripped identifier is
matched against both username and email; if no user matches, login fails
with InvalidCredentials and changes nothing; otherwise the password is
checked only against the first matching user in table order: login
succeeds bound to that user when the check passes and fails with
InvalidCredentials when it does not (even if a later user also matches
the identifier with a verifying password). -/
theorem C6_amended_login_first_match (H : HashAlg) (s : St)
    (identifier password : String) (hanon : currentUser s = none) :
    (s.users.find? (fun x => x.username == pyStrip identifier
        || x.email == pyStrip identifier) = none →
      login H s identifier password = (Outcome.invalidCredentials, s)) ∧
    (∀ u, s.users.find? (fun x => x.username == pyStrip identifier
        || x.email == pyStrip identifier) = some u →
      (H.check u.password_hash password = true →
        login H s identifier password
          = (Outcome.ok, { s with session := some u.id })) ∧
      (H.check u.password_hash password = false →
        login H s identifier password = (Outcome.invalidCredentials, s))) := by
  have hiss : (currentUser s).isSome = false := by rw [hanon]; rfl
  unfold login
  rw [hiss]
  simp only [Bool.false_eq_true, if_false]
  constructor
  · intro hfind
    rw [hfind]
  · intro u hfind
    rw [hfind]
    dsimp only
    constructor
    · intro hc
      have : u.check_password H password = true := hc
      rw [this]
      simp
    · intro hc
      have : u.check_password H password = false := hc
      rw [this]
      simp

theorem C6_amended_login_first_match_witness :
    login testHash regDupSt "alice" "pw1"
      = (Outcome.ok, { regDupSt with session := some aliceU.id }) :=
  ((C6_amended_login_first_match testHash regDupSt "alice" "pw1"
      (by decide)).2 aliceU (by decide)).1 (by decide)

/-- State with only alice registered and still logged in. -/
def projSt : St :=
  runOps testHash initSt [.register "alice" "a@x.com" "pw1" none]

/-- C7: a create-project call by an authenticated user with non-empty
title and description always succeeds and appends one project owned by
the caller; the project's image reference is present if and only if a
file with a non-empty name was attached and `allowed_file` accepts it
(extension lowercased in {png, jpg, jpeg, gif}); for a rejected file
(e.g. payload.exe) no error is raised and the image reference is empty. -/
theorem C7_upload_stored_iff_allowed (s : St) (title description budget : String)
    (file : Option String) (ts : Nat) (u : User)
    (hcu : currentUser s = some u)
    (ht : pyStrip title ≠ "") (hd : pyStrip description ≠ "") :
    (new_project s title description budget file ts).1 = Outcome.ok ∧
    ∃ proj : Project,
      (new_project s title description budget file ts).2.projects
          = s.projects ++ [proj] ∧
      proj.owner_id = u.id ∧
      (proj.image.isSome ↔ ∃ fn, file = some fn ∧ fn ≠ "" ∧ allowed_file fn = true) ∧
      (∀ fn, file = some fn → allowed_file fn = false → proj.image = none) ∧
      (new_project s title description budget file ts).2.bids = s.bids ∧
      (new_project s title description budget file ts).2.users = s.users := by
  have hemp : ¬((decide (pyStrip title = "")
      || decide (pyStrip description = "")) = true) := by
    simp [ht, hd]
  have hred : new_project s title description budget file ts =
      (Outcome.ok,
       { s with
         projects := s.projects ++
           [{ id := s.nextProjectId, title := pyStrip title,
              description := pyStrip description, budget := pyStrip budget,
              owner_id := u.id, image := imageFor file ts }],
         nextProjectId := s.nextProjectId + 1 }) := by
    unfold new_project
    rw [hcu]
    dsimp only
    rw [if_neg hemp]
  rw [hred]
  refine ⟨rfl, ⟨_, rfl, rfl, ?_, ?_, rfl, rfl⟩⟩
  · show (imageFor file ts).isSome = true ↔ _
    cases file with
    | none => simp [imageFor]
    | some fn =>
      by_cases hfn : (fn != "" && allowed_file fn) = true
      · simp only [Bool.and_eq_true, bne_iff_ne, ne_eq] at hfn
        simp [imageFor, hfn.1, hfn.2]
      · simp only [Bool.and_eq_true, bne_iff_ne, ne_eq, not_and] at hfn
        constructor
        · intro habs
          by_cases hne : fn = ""
          · simp [imageFor, hne] at habs
          · have := hfn hne
            simp [imageFor, hne, this] at habs
        · rintro ⟨fn', heq, hne, hall⟩
          injection heq with heq'
          subst heq'
          exact absurd hall (by simp [hfn hne])
  · show ∀ fn, file = some fn → allowed_file fn = false → imageFor file ts = none
    intro fn hfeq hnall
    subst hfeq
    simp [imageFor, hnall]

theorem C7_upload_stored_iff_allowed_witness :
    (new_project projSt "T" "D" "" (some "payload.exe") 5).1 = Outcome.ok ∧
    ∃ proj : Project,
      (new_project projSt "T" "D" "" (some "payload.exe") 5).2.projects
          = projSt.projects ++ [proj] ∧
      proj.owner_id = aliceU.id ∧
      (proj.image.isSome ↔
        ∃ fn, (some "payload.exe" : Option String) = some fn ∧ fn ≠ "" ∧
          allowed_file fn = true) ∧
      (∀ fn, (some "payload.exe" : Option String) = some fn →
        allowed_file fn = false → proj.image = none) ∧
      (new_project projSt "T" "D" "" (some "payload.exe") 5).2.bids
          = projSt.bids ∧
      (new_project projSt "T" "D" "" (some "payload.exe") 5).2.users
          = projSt.users :=
  C7_upload_stored_iff_allowed projSt "T" "D" "" (some "payload.exe") 5 aliceU
    (by decide) (by decide) (by decide)

/-- C8 counterexample: "my photo.png" is an accepted upload (extension
png), but the recorded filename is "1700000000_my_photo.png": the
sanitizer also rewrites the space — a character that is not
path-traversal-unsafe — to an underscore, so the original filename part
is not otherwise preserved as the claim states. -/
theorem C8_counterexample :
    allowed_file "my photo.png" = true ∧
    (new_project projSt "T" "D" "" (some "my photo.png") 1700000000).2.projects.map
        Project.image = [some "1700000000_my_photo.png"] ∧
    ("1700000000_my_photo.png" : String) ≠ "1700000000_" ++ "my photo.png" := by
  refine ⟨by decide, by decide, by decide⟩

/-- C8 (amended): for every accepted upload the recorded filename is
`secure_filename("{ts}_{original}")` — werkzeug's sanitizer, which joins
whitespace-separated pieces with underscores, keeps only characters in
[A-Za-z0-9_.-], and strips leading/trailing dots and underscores; the
original name is preserved only up to that rewriting (e.g. "photo.PNG"
is kept verbatim, case included, while "my photo.png" becomes
"my_photo.png"). -/
theorem C8_stored_filename_sanitized (s : St) (title description budget : String)
    (fn : String) (ts : Nat) (u : User)
    (hcu : currentUser s = some u)
    (ht : pyStrip title ≠ "") (hd : pyStrip description ≠ "")
    (hfn : fn ≠ "") (hallowed : allowed_file fn = true) :
    ∃ proj : Project,
      (new_project s title description budget (some fn) ts).2.projects
          = s.projects ++ [proj] ∧
      proj.image = some (secure_filename (toString ts ++ "_" ++ fn)) := by
  have hemp : ¬((decide (pyStrip title = "")
      || decide (pyStrip description = "")) = true) := by
    simp [ht, hd]
  unfold new_project
  rw [hcu]
  dsimp only
  rw [if_neg hemp]
  refine ⟨_, rfl, ?_⟩
  show imageFor (some fn) ts = _
  have hcond : (fn != "" && allowed_file fn) = true := by
    simp [hfn, hallowed]
  simp only [imageFor, hcond]
  simp

theorem C8_stored_filename_sanitized_witness :
    ∃ proj : Project,
      (new_project projSt "T" "D" "" (some "photo.PNG") 123).2.projects
          = projSt.projects ++ [proj] ∧
      proj.image = some (secure_filename (toString 123 ++ "_" ++ "photo.PNG")) :=
  C8_stored_filename_sanitized projSt "T" "D" "" "photo.PNG" 123 aliceU
    (by decide) (by decide) (by decide) (by decide) (by decide)

/-- C9: a place-bid call by an authenticated user on an existing project
with a price that is non-empty after stripping always succeeds and
appends exactly one Bid referencing that project and the acting user as
bidder, with no guard about project ownership or pre-existing bids by
the same user. -/
theorem C9_place_bid_inserts (s : St) (pid : Nat) (price message : String)
    (u : User) (proj : Project)
    (hcu : currentUser s = some u)
    (hproj : s.projects.find? (fun p => p.id == pid) = some proj)
    (hpr : pyStrip price ≠ "") :
    place_bid s pid price message =
      (Outcome.ok,
       { s with
         bids := s.bids ++
           [{ id := s.nextBidId, price := pyStrip price,
              message := pyStrip message, project_id := proj.id,
              bidder_id := u.id, accepted := false }],
         nextBidId := s.nextBidId + 1 }) := by
  unfold place_bid
  rw [hcu]
  dsimp only
  rw [hproj]
  dsimp only
  rw [if_neg hpr]

/-- State where alice owns project 1 and has already bid on it herself. -/
def ownerBidSt : St :=
  runOps testHash initSt
    [.register "alice" "a@x.com" "pw1" none,
     .newProject "Logo design" "Need a logo" "$100" none 0,
     .placeBid 1 "$50" "mine"]

theorem C9_place_bid_inserts_witness :
    logoProj.owner_id = aliceU.id ∧
    (∃ b ∈ ownerBidSt.bids, b.bidder_id = aliceU.id ∧ b.project_id = 1) ∧
    place_bid ownerBidSt 1 "$60" "" =
      (Outcome.ok,
       { ownerBidSt with
         bids := ownerBidSt.bids ++
           [{ id := 2, price := "$60", message := "", project_id := 1,
              bidder_id := 1, accepted := false }],
         nextBidId := 3 }) :=
  ⟨rfl, by decide,
   C9_place_bid_inserts ownerBidSt 1 "$60" "" aliceU logoProj
     (by decide) (by decide) (by decide)⟩

/-- Recognizer for the accept-bid operation. -/
def isAcceptOp : Op → Bool
  | .acceptBid _ _ => true
  | _ => false

theorem bids_extended_trivial {s : St} {x : Outcome × St}
    (hb : x.2.bids = s.bids) :
    (∃ t, x.2.bids = s.bids ++ t) ∧
    (∀ b ∈ x.2.bids, b ∉ s.bids → b.accepted = false) := by
  refine ⟨⟨[], by rw [hb, List.append_nil]⟩, ?_⟩
  intro b hbmem hnot
  rw [hb] at hbmem
  exact absurd hbmem hnot

/-- C10: every operation other than accept-bid leaves the existing bid
rows unchanged (the bid table is only ever extended), and any bid it adds
has `accepted = false` at creation — so a bid can only become accepted
through the accept-bid operation. -/
theorem C10_new_bids_not_accepted (H : HashAlg) (s : St) (op : Op)
    (h : isAcceptOp op = false) :
    (∃ t, (applyOp H s op).2.bids = s.bids ++ t) ∧
    (∀ b ∈ (applyOp H s op).2.bids, b ∉ s.bids → b.accepted = false) := by
  cases op with
  | acceptBid pid k => exact absurd h (by simp [isAcceptOp])
  | register u e p d =>
    apply bids_extended_trivial
    show (register H s u e p d).2.bids = s.bids
    unfold register
    dsimp only
    split
    · rfl
    · split
      · rfl
      · split
        · rfl
        · rfl
  | login i p =>
    apply bids_extended_trivial
    show (login H s i p).2.bids = s.bids
    unfold login
    dsimp only
    split
    · rfl
    · split
      · split
        · rfl
        · rfl
      · rfl
  | logout =>
    apply bids_extended_trivial
    show (logout s).2.bids = s.bids
    unfold logout
    split
    · rfl
    · rfl
  | newProject t d b f ts =>
    apply bids_extended_trivial
    show (new_project s t d b f ts).2.bids = s.bids
    unfold new_project
    dsimp only
    split
    · rfl
    · split
      · rfl
      · rfl
  | placeBid pid pr m =>
    show (∃ t, (place_bid s pid pr m).2.bids = s.bids ++ t) ∧
      (∀ b ∈ (place_bid s pid pr m).2.bids, b ∉ s.bids → b.accepted = false)
    unfold place_bid
    dsimp only
    split
    · exact bids_extended_trivial rfl
    · split
      · exact bids_extended_trivial rfl
      · split
        · exact bids_extended_trivial rfl
        · refine ⟨⟨_, rfl⟩, ?_⟩
          intro b hbmem hnot
          rcases List.mem_append.mp hbmem with h' | h'
          · exact absurd h' hnot
          · simp only [List.mem_singleton] at h'
            subst h'
            rfl

theorem C10_new_bids_not_accepted_witness :
    (∃ t, (applyOp testHash ownerBidSt (.placeBid 1 "$60" "")).2.bids
        = ownerBidSt.bids ++ t) ∧
    (∀ b ∈ (applyOp testHash ownerBidSt (.placeBid 1 "$60" "")).2.bids,
        b ∉ ownerBidSt.bids → b.accepted = false) :=
  C10_new_bids_not_accepted testHash ownerBidSt (.placeBid 1 "$60" "") rfl

end MiniFreelance
